import Mathlib

/-!
Shallow embedding of the query-parameter validator from
`src/cmd/api/main.go` (package main of
devdahcoder/golang-query-param-validator).

Go maps are modelled as association lists with Go map semantics
(`mapLookup` returns the value stored under a key, `mapInsert`
overwrites in place or appends).  The `*regexp.Regexp` values stored in
`paramPatterns` are modelled as their compiled matchers, of type
`String → Bool`; the three literal regular expressions appearing in the
source are translated character-class by character-class into Lean
functions on `String`.  Methods that take the receiver by pointer are
translated into state-passing style: they take the `QueryValidator` and
return the (possibly updated) `QueryValidator` alongside their Go
return values.
-/

/-- Go `map[string]V` lookup `m[k]`: the value stored under `k`, if any. -/
def mapLookup {α : Type} : List (String × α) → String → Option α
  | [], _ => none
  | (k', v') :: rest, k => if k' = k then some v' else mapLookup rest k

/-- Go `map[string]V` assignment `m[k] = v`: overwrite the entry for `k`
in place, or append a fresh entry when `k` is absent. -/
def mapInsert {α : Type} : List (String × α) → String → α → List (String × α)
  | [], k, v => [(k, v)]
  | (k', v') :: rest, k, v =>
      if k' = k then (k, v) :: rest else (k', v') :: mapInsert rest k v

/-- The character class `[a-zA-Z]` of the source's regular expressions. -/
def isAsciiLetter (c : Char) : Bool :=
  ('A' ≤ c && c ≤ 'Z') || ('a' ≤ c && c ≤ 'z')

/-- The character class `\d` (in Go's RE2, `[0-9]`). -/
def isAsciiDigit (c : Char) : Bool :=
  '0' ≤ c && c ≤ '9'

/-- Matcher of the anchored regular expression `^[a-zA-Z][a-zA-Z0-9_]*$`
compiled in `NewQueryValidator` (src/cmd/api/main.go line 29): one ASCII
letter followed by any number of letters, digits or underscores. -/
def matchDefaultNamePattern (s : String) : Bool :=
  match s.data with
  | [] => false
  | c :: rest => isAsciiLetter c && rest.all (fun d => isAsciiLetter d || isAsciiDigit d || d == '_')

/-- Matcher of `\d+(\.\d+)?` on a character list: one or more digits,
optionally followed by a dot and one or more digits. -/
def matchUnsignedNumber (cs : List Char) : Bool :=
  let ds := cs.takeWhile isAsciiDigit
  let rest := cs.dropWhile isAsciiDigit
  !ds.isEmpty &&
    (match rest with
     | [] => true
     | '.' :: fs => !fs.isEmpty && fs.all isAsciiDigit
     | _ => false)

/-- The `number` type validator registered by `NewQueryValidator`
(src/cmd/api/main.go lines 31-34): `regexp.MatchString` of the anchored
pattern `^-?\d+(\.\d+)?$` against the value.  The optional leading `-`
is consumed when present (with full anchoring the regex can match no
other way). -/
def numberValidator (v : String) : Bool :=
  match v.data with
  | '-' :: rest => matchUnsignedNumber rest
  | cs => matchUnsignedNumber cs

/-- Model of Go `strings.ToLower` as used by the `boolean` validator:
per-character lowercase mapping over the string (`Char.toLower` lowers
the ASCII range, which is the only range relevant to comparing against
the four ASCII literals below; no Unicode uppercase character lowers to
any character of "true", "false", "1" or "0"). -/
def goToLower (s : String) : String :=
  ⟨s.data.map Char.toLower⟩

/-- The `boolean` type validator registered by `NewQueryValidator`
(src/cmd/api/main.go lines 38-41): lowercase the value with
`strings.ToLower`, then compare against the four literals. -/
def booleanValidator (v : String) : Bool :=
  let w := goToLower v
  w == "true" || w == "false" || w == "1" || w == "0"

/-- The `date` type validator registered by `NewQueryValidator`
(src/cmd/api/main.go lines 43-46): `regexp.MatchString` of the anchored
pattern `^\d{4}-\d{2}-\d{2}$` — four digits, a dash, two digits, a
dash, two digits; no calendar validity check. -/
def dateValidator (v : String) : Bool :=
  match v.data with
  | [y1, y2, y3, y4, h1, m1, m2, h2, d1, d2] =>
      isAsciiDigit y1 && isAsciiDigit y2 && isAsciiDigit y3 && isAsciiDigit y4 &&
      h1 == '-' && isAsciiDigit m1 && isAsciiDigit m2 &&
      h2 == '-' && isAsciiDigit d1 && isAsciiDigit d2
  | _ => false

/-- Go struct `QueryValidationError` (src/cmd/api/main.go lines 12-16). -/
structure QueryValidationError where
  parameter : String
  value : String
  message : String
deriving DecidableEq, Repr

/-- Go struct `QueryValidator` (src/cmd/api/main.go lines 18-21): the
two lookup tables. -/
structure QueryValidator where
  paramPatterns : List (String × (String → Bool))
  typeValidators : List (String × (String → Bool))

/-- Go method `AddParamPattern` (src/cmd/api/main.go lines 51-58).  The
call into the external regular-expression library, `regexp.Compile`, is
passed in as `compile`; on a compile error the Go method returns
`fmt.Errorf("invalid pattern for %s: %v", name, err)` and leaves the
receiver untouched, otherwise it stores the compiled matcher under
`name` and returns nil.  The result is the returned `error` (modelled
as `Option String`) paired with the updated receiver. -/
def AddParamPattern (compile : String → Except String (String → Bool))
    (qv : QueryValidator) (name pattern : String) :
    Option String × QueryValidator :=
  match compile pattern with
  | .error err => (some ("invalid pattern for " ++ name ++ ": " ++ err), qv)
  | .ok regex => (none, { qv with paramPatterns := mapInsert qv.paramPatterns name regex })

/-- Go method `AddTypeValidator` (src/cmd/api/main.go lines 60-62):
store `validator` under `name` unconditionally. -/
def AddTypeValidator (qv : QueryValidator) (name : String)
    (validator : String → Bool) : QueryValidator :=
  { qv with typeValidators := mapInsert qv.typeValidators name validator }

/-- Go function `NewQueryValidator` (src/cmd/api/main.go lines 23-49):
start from empty tables, register the `default` name pattern (the call
`qv.AddParamPattern("default", ^[a-zA-Z][a-zA-Z0-9_]*$)` compiles the
literal pattern successfully and stores its matcher,
`matchDefaultNamePattern`), then assign the three built-in type
validators. -/
def NewQueryValidator : QueryValidator :=
  { paramPatterns := mapInsert [] "default" matchDefaultNamePattern,
    typeValidators :=
      mapInsert (mapInsert (mapInsert [] "number" numberValidator)
        "boolean" booleanValidator) "date" dateValidator }

/-- Go method `validateParamName` (src/cmd/api/main.go lines 101-107):
look up the `default` pattern; when absent the check passes, otherwise
the parameter name must match the pattern. -/
def validateParamName (qv : QueryValidator) (param : String) : Bool :=
  match mapLookup qv.paramPatterns "default" with
  | none => true
  | some pattern => pattern param

/-- Go method `validateParamValue` (src/cmd/api/main.go lines 109-115):
look up the validator registered under `expectedType`; when absent the
check passes, otherwise the value must satisfy the validator. -/
def validateParamValue (qv : QueryValidator) (value expectedType : String) : Bool :=
  match mapLookup qv.typeValidators expectedType with
  | none => true
  | some validator => validator value

/-- The `for param, value := range queries` loop body of `ValidateQuery`
(src/cmd/api/main.go lines 69-96), accumulating the emitted
`QueryValidationError` records in iteration order. -/
def validateQueryLoop (qv : QueryValidator) (rules : List (String × String)) :
    List (String × String) → List QueryValidationError
  | [] => []
  | (param, value) :: rest =>
    if !validateParamName qv param then
      { parameter := param, value := value, message := "invalid parameter name format" }
        :: validateQueryLoop qv rules rest
    else
      match mapLookup rules param with
      | none =>
          { parameter := param, value := value, message := "unexpected parameter" }
            :: validateQueryLoop qv rules rest
      | some expectedType =>
          if !validateParamValue qv value expectedType then
            { parameter := param, value := value,
              message := "invalid value for type " ++ expectedType }
              :: validateQueryLoop qv rules rest
          else
            validateQueryLoop qv rules rest

/-- Go method `ValidateQuery` (src/cmd/api/main.go lines 64-99).  The
observed query set `c.Queries()` is modelled as a sequence of
(parameter, value) pairs in iteration order.  The method only reads the
receiver's tables and the `rules` map; in state-passing style it
returns the error slice together with the receiver and the rules map as
they stand after the call. -/
def ValidateQuery (qv : QueryValidator) (queries rules : List (String × String)) :
    List QueryValidationError × QueryValidator × List (String × String) :=
  (validateQueryLoop qv rules queries, qv, rules)

/-- Modelled from the spec (§4.1 steps 2-3): declared-parameter check
(`param` must be a key of `rules`, else "unexpected parameter"), then
type check (permissive when no validator is registered under the
expected type tag). -/
def specDeclaredCheck (qv : QueryValidator) (rules : List (String × String))
    (param value : String) : Option QueryValidationError :=
  match mapLookup rules param with
  | none => some { parameter := param, value := value, message := "unexpected parameter" }
  | some tag =>
      match mapLookup qv.typeValidators tag with
      | none => none
      | some f =>
          if f value then none
          else some { parameter := param, value := value,
                      message := "invalid value for type " ++ tag }

/-- Modelled from the spec (§4.1 steps 1-3): the three-step check that
the specification prescribes for a single observed `(param, value)`
pair — name-format check first (only when a `default` pattern is
registered), then declared-parameter check, then type check.  Returns
the single error record the spec says this pair contributes, if any. -/
def specCheckParam (qv : QueryValidator) (rules : List (String × String))
    (param value : String) : Option QueryValidationError :=
  match mapLookup qv.paramPatterns "default" with
  | some pat =>
      if pat param then specDeclaredCheck qv rules param value
      else some { parameter := param, value := value, message := "invalid parameter name format" }
  | none => specDeclaredCheck qv rules param value

/-! ## Lemmas about the map model -/

theorem mapLookup_mapInsert_self {α : Type} (m : List (String × α)) (k : String) (v : α) :
    mapLookup (mapInsert m k v) k = some v := by
  induction m with
  | nil => simp [mapInsert, mapLookup]
  | cons kv rest ih =>
    obtain ⟨k', v'⟩ := kv
    by_cases h : k' = k <;> simp [mapInsert, mapLookup, h, ih]

theorem mapLookup_mapInsert_ne {α : Type} (m : List (String × α)) (k k₂ : String) (v : α)
    (h : k₂ ≠ k) : mapLookup (mapInsert m k v) k₂ = mapLookup m k₂ := by
  induction m with
  | nil => simp [mapInsert, mapLookup, Ne.symm h]
  | cons kv rest ih =>
    obtain ⟨k', v'⟩ := kv
    by_cases hk : k' = k
    · subst hk
      simp [mapInsert, mapLookup, Ne.symm h]
    · simp only [mapInsert, hk, if_false, mapLookup]
      by_cases hk2 : k' = k₂ <;> simp [hk2, ih]

/-! ## The loop computes the spec's per-parameter check, pair by pair -/

/-- Any record `specCheckParam` emits carries the observed parameter and
value it was emitted for. -/
theorem specCheckParam_fields (qv : QueryValidator) (rules : List (String × String))
    (param value : String) (e : QueryValidationError)
    (h : specCheckParam qv rules param value = some e) :
    e.parameter = param ∧ e.value = value := by
  unfold specCheckParam specDeclaredCheck at h
  repeat' split at h
  all_goals simp_all
  all_goals
    obtain rfl := h
    exact ⟨rfl, rfl⟩

/-- One step of the `ValidateQuery` loop emits the record the spec's
three-step check determines for the pair at the head. -/
theorem validateQueryLoop_cons (qv : QueryValidator) (rules : List (String × String))
    (param value : String) (rest : List (String × String)) :
    validateQueryLoop qv rules ((param, value) :: rest)
      = match specCheckParam qv rules param value with
        | none => validateQueryLoop qv rules rest
        | some e => e :: validateQueryLoop qv rules rest := by
  cases hpat : mapLookup qv.paramPatterns "default" with
  | none =>
    cases hrule : mapLookup rules param with
    | none =>
      simp [validateQueryLoop, validateParamName, specCheckParam, specDeclaredCheck, hpat, hrule]
    | some tag =>
      cases hval : mapLookup qv.typeValidators tag with
      | none =>
        simp [validateQueryLoop, validateParamName, validateParamValue, specCheckParam,
          specDeclaredCheck, hpat, hrule, hval]
      | some f =>
        by_cases hf : f value <;>
          simp [validateQueryLoop, validateParamName, validateParamValue, specCheckParam,
            specDeclaredCheck, hpat, hrule, hval, hf]
  | some pat =>
    by_cases hp : pat param
    · cases hrule : mapLookup rules param with
      | none =>
        simp [validateQueryLoop, validateParamName, specCheckParam, specDeclaredCheck,
          hpat, hp, hrule]
      | some tag =>
        cases hval : mapLookup qv.typeValidators tag with
        | none =>
          simp [validateQueryLoop, validateParamName, validateParamValue, specCheckParam,
            specDeclaredCheck, hpat, hp, hrule, hval]
        | some f =>
          by_cases hf : f value <;>
            simp [validateQueryLoop, validateParamName, validateParamValue, specCheckParam,
              specDeclaredCheck, hpat, hp, hrule, hval, hf]
    · simp [validateQueryLoop, validateParamName, specCheckParam, hpat, hp]

/-- The `ValidateQuery` loop emits, in iteration order, exactly the
record `specCheckParam` determines for each observed pair. -/
theorem validateQueryLoop_eq_filterMap (qv : QueryValidator)
    (rules queries : List (String × String)) :
    validateQueryLoop qv rules queries
      = queries.filterMap (fun pv => specCheckParam qv rules pv.1 pv.2) := by
  induction queries with
  | nil => rfl
  | cons pv rest ih =>
    obtain ⟨param, value⟩ := pv
    rw [List.filterMap_cons, validateQueryLoop_cons, ih]
    cases hc : specCheckParam qv rules param value <;> simp [hc]

/-! ## Characterizing the regular-expression matchers -/

/-- Splitting a list at the first character failing `p`: when a prefix
satisfies `p` throughout and the remainder is empty or starts with a
character failing `p`, `takeWhile`/`dropWhile` recover exactly that
split. -/
theorem takeWhile_dropWhile_of_split {p : Char → Bool} (ds rest : List Char)
    (hds : ∀ d ∈ ds, p d = true)
    (hrest : ∀ c cs, rest = c :: cs → p c = false) :
    (ds ++ rest).takeWhile p = ds ∧ (ds ++ rest).dropWhile p = rest := by
  induction ds with
  | nil =>
    cases rest with
    | nil => simp
    | cons c cs => simp [List.takeWhile, List.dropWhile, hrest c cs rfl]
  | cons d ds ih =>
    have hd : p d = true := hds d (List.mem_cons_self d ds)
    have ih2 := ih (fun x hx => hds x (List.mem_cons_of_mem d hx))
    simp [List.takeWhile, List.dropWhile, hd, ih2.1, ih2.2]

/-- `matchUnsignedNumber` accepts exactly the character lists of the
form `\d+(\.\d+)?`. -/
theorem matchUnsignedNumber_iff (cs : List Char) :
    matchUnsignedNumber cs = true ↔
      ∃ ds frac, cs = ds ++ frac ∧ ds ≠ [] ∧ (∀ d ∈ ds, isAsciiDigit d = true)
        ∧ (frac = [] ∨ ∃ fs, frac = '.' :: fs ∧ fs ≠ [] ∧ ∀ f ∈ fs, isAsciiDigit f = true) := by
  constructor
  · intro h
    simp only [matchUnsignedNumber] at h
    rw [Bool.and_eq_true] at h
    obtain ⟨h1, h2⟩ := h
    refine ⟨cs.takeWhile isAsciiDigit, cs.dropWhile isAsciiDigit,
      (List.takeWhile_append_dropWhile isAsciiDigit cs).symm,
      ?_, fun d hd => List.mem_takeWhile_imp hd, ?_⟩
    · intro hnil
      rw [hnil] at h1
      simp at h1
    · split at h2
      next heq => exact Or.inl heq
      next fs heq =>
        rw [Bool.and_eq_true] at h2
        refine Or.inr ⟨fs, heq, ?_, fun f hf => List.all_eq_true.mp h2.2 f hf⟩
        intro hnil
        rw [hnil] at h2
        simp at h2
      next => cases h2
  · rintro ⟨ds, frac, rfl, hne, hds, hfrac⟩
    have hsplit : (ds ++ frac).takeWhile isAsciiDigit = ds
        ∧ (ds ++ frac).dropWhile isAsciiDigit = frac := by
      refine takeWhile_dropWhile_of_split ds frac hds ?_
      intro c cs0 hc
      rcases hfrac with h0 | ⟨fs, hfs, -, -⟩
      · rw [h0] at hc
        cases hc
      · rw [hfs] at hc
        cases hc
        decide
    simp only [matchUnsignedNumber]
    rw [hsplit.1, hsplit.2, Bool.and_eq_true]
    refine ⟨by simp [hne], ?_⟩
    rcases hfrac with h0 | ⟨fs, hfs, hfsne, hfsall⟩
    · subst h0
      rfl
    · subst hfs
      simp only
      rw [Bool.and_eq_true]
      exact ⟨by simp [hfsne], List.all_eq_true.mpr hfsall⟩

theorem isAsciiDigit_iff (c : Char) : isAsciiDigit c = true ↔ '0' ≤ c ∧ c ≤ '9' := by
  simp [isAsciiDigit]

theorem isAsciiLetter_iff (c : Char) :
    isAsciiLetter c = true ↔ ('A' ≤ c ∧ c ≤ 'Z') ∨ ('a' ≤ c ∧ c ≤ 'z') := by
  simp [isAsciiLetter]

/-- `matchUnsignedNumber` restated with plain character ranges. -/
theorem matchUnsignedNumber_ranges (cs : List Char) :
    matchUnsignedNumber cs = true ↔
      ∃ ds frac, cs = ds ++ frac ∧ ds ≠ [] ∧ (∀ d ∈ ds, '0' ≤ d ∧ d ≤ '9')
        ∧ (frac = [] ∨ ∃ fs, frac = '.' :: fs ∧ fs ≠ [] ∧ ∀ f ∈ fs, '0' ≤ f ∧ f ≤ '9') := by
  rw [matchUnsignedNumber_iff]
  constructor
  · rintro ⟨ds, frac, rfl, hne, hds, hfrac⟩
    refine ⟨ds, frac, rfl, hne, fun d hd => (isAsciiDigit_iff d).mp (hds d hd), ?_⟩
    rcases hfrac with h | ⟨fs, hfs, hne2, hall⟩
    · exact Or.inl h
    · exact Or.inr ⟨fs, hfs, hne2, fun f hf => (isAsciiDigit_iff f).mp (hall f hf)⟩
  · rintro ⟨ds, frac, rfl, hne, hds, hfrac⟩
    refine ⟨ds, frac, rfl, hne, fun d hd => (isAsciiDigit_iff d).mpr (hds d hd), ?_⟩
    rcases hfrac with h | ⟨fs, hfs, hne2, hall⟩
    · exact Or.inl h
    · exact Or.inr ⟨fs, hfs, hne2, fun f hf => (isAsciiDigit_iff f).mpr (hall f hf)⟩

/-- The `number` validator accepts exactly the strings of the shape
`^-?\d+(\.\d+)?$`: an optional leading minus, one or more digits,
optionally a dot followed by one or more digits. -/
theorem numberValidator_iff (v : String) :
    numberValidator v = true ↔
      ∃ sign ds frac : List Char,
        v.data = sign ++ ds ++ frac
        ∧ (sign = [] ∨ sign = ['-'])
        ∧ ds ≠ [] ∧ (∀ d ∈ ds, '0' ≤ d ∧ d ≤ '9')
        ∧ (frac = [] ∨ ∃ fs, frac = '.' :: fs ∧ fs ≠ [] ∧ ∀ f ∈ fs, '0' ≤ f ∧ f ≤ '9') := by
  cases hv : v.data with
  | nil =>
    have hnv : numberValidator v = false := by
      unfold numberValidator
      rw [hv]
      rfl
    rw [hnv]
    constructor
    · intro h; cases h
    · rintro ⟨sign, ds, frac, heq, hsign, hne, -, -⟩
      exfalso
      rcases hsign with rfl | rfl
      · simp only [List.nil_append] at heq
        rcases List.append_eq_nil.mp heq.symm with ⟨h1, -⟩
        exact hne h1
      · simp at heq
  | cons c tail =>
    by_cases hc : c = '-'
    · subst hc
      have hnv : numberValidator v = matchUnsignedNumber tail := by
        unfold numberValidator
        rw [hv]
        rfl
      rw [hnv, matchUnsignedNumber_ranges]
      constructor
      · rintro ⟨ds, frac, htail, hne, hds, hfrac⟩
        refine ⟨['-'], ds, frac, ?_, Or.inr rfl, hne, hds, hfrac⟩
        rw [htail]
        simp
      · rintro ⟨sign, ds, frac, heq, hsign, hne, hds, hfrac⟩
        rcases hsign with rfl | rfl
        · exfalso
          cases ds with
          | nil => exact hne rfl
          | cons d ds2 =>
            simp only [List.nil_append, List.cons_append, List.cons.injEq] at heq
            obtain ⟨hd, -⟩ := heq
            have := hds d (List.mem_cons_self d ds2)
            rw [← hd] at this
            exact absurd this.1 (by decide)
        · refine ⟨ds, frac, ?_, hne, hds, hfrac⟩
          simp only [List.cons_append, List.nil_append, List.append_assoc,
            List.cons.injEq, true_and] at heq
          exact heq
    · have hnv : numberValidator v = matchUnsignedNumber (c :: tail) := by
        unfold numberValidator
        rw [hv]
        split
        next rest heq =>
          injection heq with h1 h2
          exact absurd h1 hc
        next => rfl
      rw [hnv, matchUnsignedNumber_ranges]
      constructor
      · rintro ⟨ds, frac, htail, hne, hds, hfrac⟩
        refine ⟨[], ds, frac, ?_, Or.inl rfl, hne, hds, hfrac⟩
        simpa using htail
      · rintro ⟨sign, ds, frac, heq, hsign, hne, hds, hfrac⟩
        rcases hsign with rfl | rfl
        · refine ⟨ds, frac, ?_, hne, hds, hfrac⟩
          simpa using heq
        · exfalso
          simp only [List.cons_append, List.nil_append, List.cons.injEq] at heq
          exact hc heq.1

/-- The default name pattern accepts exactly an ASCII letter followed by
letters, digits or underscores. -/
theorem matchDefaultNamePattern_iff (s : String) :
    matchDefaultNamePattern s = true ↔
      ∃ c cs, s.data = c :: cs
        ∧ (('A' ≤ c ∧ c ≤ 'Z') ∨ ('a' ≤ c ∧ c ≤ 'z'))
        ∧ ∀ d ∈ cs, ('A' ≤ d ∧ d ≤ 'Z') ∨ ('a' ≤ d ∧ d ≤ 'z') ∨ ('0' ≤ d ∧ d ≤ '9') ∨ d = '_' := by
  cases hs : s.data with
  | nil =>
    constructor
    · intro h
      unfold matchDefaultNamePattern at h
      rw [hs] at h
      cases h
    · rintro ⟨c, cs, h, -⟩
      cases h
  | cons c rest =>
    have hm : matchDefaultNamePattern s
        = (isAsciiLetter c && rest.all (fun d => isAsciiLetter d || isAsciiDigit d || d == '_')) := by
      unfold matchDefaultNamePattern
      rw [hs]
    rw [hm, Bool.and_eq_true, List.all_eq_true]
    constructor
    · rintro ⟨h1, h2⟩
      refine ⟨c, rest, rfl, (isAsciiLetter_iff c).mp h1, fun d hd => ?_⟩
      have hx := h2 d hd
      simp only [Bool.or_eq_true, beq_iff_eq, isAsciiLetter_iff, isAsciiDigit_iff] at hx
      tauto
    · rintro ⟨c', cs', heq, h1, h2⟩
      obtain ⟨rfl, rfl⟩ : c = c' ∧ rest = cs' := by
        rw [List.cons.injEq] at heq
        exact heq
      refine ⟨(isAsciiLetter_iff c).mpr h1, fun d hd => ?_⟩
      have hx := h2 d hd
      simp only [Bool.or_eq_true, beq_iff_eq, isAsciiLetter_iff, isAsciiDigit_iff]
      tauto

/-! ## The claims -/

/-- C1: `ValidateQuery` returns exactly the error records determined,
for each observed (param, value) pair in iteration order, by the
spec's three-step check (`specCheckParam`): name-format check first
(skipping the rest on failure), then unexpected-parameter check, then
type check.  Hence each observed pair contributes at most one record
(the output is never longer than the observed set), and every emitted
record carries an observed (parameter, value) pair — so parameters
declared in `rules` but absent from the observed set contribute no
records. -/
theorem validateQuery_emits_spec_records (qv : QueryValidator)
    (queries rules : List (String × String)) :
    (ValidateQuery qv queries rules).1
        = queries.filterMap (fun pv => specCheckParam qv rules pv.1 pv.2)
      ∧ (ValidateQuery qv queries rules).1.length ≤ queries.length
      ∧ ∀ e ∈ (ValidateQuery qv queries rules).1, (e.parameter, e.value) ∈ queries := by
  have hmain : (ValidateQuery qv queries rules).1
      = queries.filterMap (fun pv => specCheckParam qv rules pv.1 pv.2) :=
    validateQueryLoop_eq_filterMap qv rules queries
  refine ⟨hmain, ?_, ?_⟩
  · rw [hmain]
    exact List.length_filterMap_le _ queries
  · intro e he
    rw [hmain] at he
    obtain ⟨pv, hpv, hsome⟩ := List.mem_filterMap.mp he
    obtain ⟨hp, hv⟩ := specCheckParam_fields qv rules pv.1 pv.2 e hsome
    rw [hp, hv]
    exact hpv

/-- C2: with the configuration produced by `NewQueryValidator`, the
name-format check passes exactly on strings matching
`^[a-zA-Z][a-zA-Z0-9_]*$`; the names "1abc", "" and "a-b" all fail it,
and a request carrying such a name yields exactly the record with
message "invalid parameter name format". -/
theorem newQueryValidator_name_format_check :
    (∀ s : String, validateParamName NewQueryValidator s = true ↔
      ∃ c cs, s.data = c :: cs
        ∧ (('A' ≤ c ∧ c ≤ 'Z') ∨ ('a' ≤ c ∧ c ≤ 'z'))
        ∧ ∀ d ∈ cs, ('A' ≤ d ∧ d ≤ 'Z') ∨ ('a' ≤ d ∧ d ≤ 'z') ∨ ('0' ≤ d ∧ d ≤ '9') ∨ d = '_')
    ∧ validateParamName NewQueryValidator "1abc" = false
    ∧ validateParamName NewQueryValidator "" = false
    ∧ validateParamName NewQueryValidator "a-b" = false
    ∧ ∀ rules v, (ValidateQuery NewQueryValidator [("1abc", v)] rules).1
        = [{ parameter := "1abc", value := v, message := "invalid parameter name format" }] := by
  have hlook : mapLookup NewQueryValidator.paramPatterns "default"
      = some matchDefaultNamePattern := rfl
  refine ⟨?_, by decide, by decide, by decide, ?_⟩
  · intro s
    rw [validateParamName, hlook]
    exact matchDefaultNamePattern_iff s
  · intro rules v
    have hname : matchDefaultNamePattern "1abc" = false := by decide
    show validateQueryLoop NewQueryValidator rules [("1abc", v)]
        = [{ parameter := "1abc", value := v, message := "invalid parameter name format" }]
    rw [validateQueryLoop_cons]
    simp [specCheckParam, hlook, hname, validateQueryLoop]

/-- C3: the built-in `number` validator (registered under the tag
"number" by `NewQueryValidator`) accepts a string exactly when it
matches `^-?\d+(\.\d+)?$`: an optional leading minus, then one or more
digits, then optionally a dot followed by one or more digits; "42" and
"-3.5" are accepted, "abc" and "3." are rejected. -/
theorem number_validator_spec :
    mapLookup NewQueryValidator.typeValidators "number" = some numberValidator
    ∧ (∀ v : String, numberValidator v = true ↔
        ∃ sign ds frac : List Char,
          v.data = sign ++ ds ++ frac
          ∧ (sign = [] ∨ sign = ['-'])
          ∧ ds ≠ [] ∧ (∀ d ∈ ds, '0' ≤ d ∧ d ≤ '9')
          ∧ (frac = [] ∨ ∃ fs, frac = '.' :: fs ∧ fs ≠ [] ∧ ∀ f ∈ fs, '0' ≤ f ∧ f ≤ '9'))
    ∧ numberValidator "42" = true ∧ numberValidator "-3.5" = true
    ∧ numberValidator "abc" = false ∧ numberValidator "3." = false :=
  ⟨rfl, numberValidator_iff, by decide, by decide, by decide, by decide⟩

/-- C4: the built-in `boolean` validator (registered under the tag
"boolean" by `NewQueryValidator`) accepts a string exactly when its
lowercase form is one of "true", "false", "1", "0"; "TRUE" is accepted
and "yes" is rejected. -/
theorem boolean_validator_spec :
    mapLookup NewQueryValidator.typeValidators "boolean" = some booleanValidator
    ∧ (∀ v : String, booleanValidator v = true ↔
        (goToLower v = "true" ∨ goToLower v = "false" ∨ goToLower v = "1" ∨ goToLower v = "0"))
    ∧ booleanValidator "TRUE" = true ∧ booleanValidator "yes" = false := by
  refine ⟨rfl, ?_, by decide, by decide⟩
  intro v
  simp only [booleanValidator, Bool.or_eq_true, beq_iff_eq]
  tauto

/-- C5: the built-in `date` validator (registered under the tag "date"
by `NewQueryValidator`) accepts a string exactly when it matches
`^\d{4}-\d{2}-\d{2}$` — four digits, a dash, two digits, a dash, two
digits — with no calendar-validity check, so the impossible date
"2024-13-99" is accepted. -/
theorem date_validator_spec :
    mapLookup NewQueryValidator.typeValidators "date" = some dateValidator
    ∧ (∀ v : String, dateValidator v = true ↔
        ∃ y1 y2 y3 y4 m1 m2 d1 d2 : Char,
          v.data = [y1, y2, y3, y4, '-', m1, m2, '-', d1, d2]
          ∧ ∀ c ∈ [y1, y2, y3, y4, m1, m2, d1, d2], '0' ≤ c ∧ c ≤ '9')
    ∧ dateValidator "2024-13-99" = true := by
  refine ⟨rfl, ?_, by decide⟩
  intro v
  constructor
  · intro h
    unfold dateValidator at h
    split at h
    next y1 y2 y3 y4 h1 m1 m2 h2 d1 d2 heq =>
      simp only [Bool.and_eq_true, beq_iff_eq, isAsciiDigit_iff] at h
      have hh1 : h1 = '-' := by tauto
      have hh2 : h2 = '-' := by tauto
      subst hh1
      subst hh2
      refine ⟨y1, y2, y3, y4, m1, m2, d1, d2, heq, fun c hc => ?_⟩
      simp only [List.mem_cons, List.not_mem_nil, or_false] at hc
      rcases hc with rfl | rfl | rfl | rfl | rfl | rfl | rfl | rfl <;> tauto
    next => cases h
  · rintro ⟨y1, y2, y3, y4, m1, m2, d1, d2, hv, hall⟩
    unfold dateValidator
    rw [hv]
    simp only [Bool.and_eq_true, beq_iff_eq, isAsciiDigit_iff]
    have a1 := hall y1 (by simp)
    have a2 := hall y2 (by simp)
    have a3 := hall y3 (by simp)
    have a4 := hall y4 (by simp)
    have a5 := hall m1 (by simp)
    have a6 := hall m2 (by simp)
    have a7 := hall d1 (by simp)
    have a8 := hall d2 (by simp)
    tauto

/-- C6: the fallbacks are permissive — a value whose expected type tag
has no registered validator passes the type check, and when no pattern
is registered under "default" every parameter name passes the
name-format check. -/
theorem permissive_fallback (qv : QueryValidator) :
    (∀ value tag, mapLookup qv.typeValidators tag = none →
        validateParamValue qv value tag = true)
    ∧ (mapLookup qv.paramPatterns "default" = none →
        ∀ param, validateParamName qv param = true) := by
  constructor
  · intro value tag h
    rw [validateParamValue, h]
  · intro h param
    rw [validateParamName, h]

/-- Witness for C6: the empty validator registers nothing, so both
checks pass on concrete inputs. -/
theorem permissive_fallback_witness :
    validateParamValue { paramPatterns := [], typeValidators := [] } "oops" "number" = true
    ∧ validateParamName { paramPatterns := [], typeValidators := [] } "???" = true :=
  ⟨(permissive_fallback { paramPatterns := [], typeValidators := [] }).1 "oops" "number" rfl,
   (permissive_fallback { paramPatterns := [], typeValidators := [] }).2 rfl "???"⟩

/-- C7: when the pattern does not compile, `AddParamPattern` returns a
configuration error whose message contains the offending name and the
underlying compiler message, and the validator — in particular its
name-pattern table, its "default" entry included — is returned exactly
as it was. -/
theorem addParamPattern_compile_error
    (compile : String → Except String (String → Bool))
    (qv : QueryValidator) (name pattern err : String)
    (h : compile pattern = .error err) :
    AddParamPattern compile qv name pattern
      = (some ("invalid pattern for " ++ name ++ ": " ++ err), qv) := by
  rw [AddParamPattern, h]

/-- Witness for C7: a compiler rejecting "(" leaves `NewQueryValidator`
untouched and reports the name and the compiler message. -/
theorem addParamPattern_compile_error_witness :
    AddParamPattern (fun _ => .error "missing closing )") NewQueryValidator "foo" "("
      = (some ("invalid pattern for " ++ "foo" ++ ": " ++ "missing closing )"),
         NewQueryValidator) :=
  addParamPattern_compile_error (fun _ => .error "missing closing )")
    NewQueryValidator "foo" "(" "missing closing )" rfl

/-- C8: `ValidateQuery` has no side effects — the validator's two
tables and the rules mapping come back exactly as they went in — and
the returned sequence is empty exactly when every observed pair passes
all three checks (the request is fully valid). -/
theorem validateQuery_no_side_effects (qv : QueryValidator)
    (queries rules : List (String × String)) :
    (ValidateQuery qv queries rules).2.1 = qv
    ∧ (ValidateQuery qv queries rules).2.2 = rules
    ∧ ((ValidateQuery qv queries rules).1 = []
        ↔ ∀ pv ∈ queries, specCheckParam qv rules pv.1 pv.2 = none) := by
  refine ⟨rfl, rfl, ?_⟩
  show validateQueryLoop qv rules queries = [] ↔ _
  rw [validateQueryLoop_eq_filterMap]
  exact List.filterMap_eq_nil_iff

/-- C9: `ValidateQuery` is deterministic and total: it is a function
(so two runs on the same inputs agree), and its output depends on the
observed query set only up to order — permuting the observed pairs
permutes the returned records, so the same records are returned with
the same multiplicities. -/
theorem validateQuery_deterministic (qv : QueryValidator)
    (rules q1 q2 : List (String × String)) (h : q1.Perm q2) :
    ((ValidateQuery qv q1 rules).1).Perm ((ValidateQuery qv q2 rules).1) := by
  show (validateQueryLoop qv rules q1).Perm (validateQueryLoop qv rules q2)
  rw [validateQueryLoop_eq_filterMap, validateQueryLoop_eq_filterMap]
  exact h.filterMap _

/-- Witness for C9: swapping two observed pairs permutes the output. -/
theorem validateQuery_deterministic_witness :
    (([("a", "1"), ("b", "2")] : List (String × String)).Perm
      [("b", "2"), ("a", "1")])
    ∧ ((ValidateQuery NewQueryValidator [("a", "1"), ("b", "2")] []).1).Perm
        ((ValidateQuery NewQueryValidator [("b", "2"), ("a", "1")] []).1) :=
  ⟨List.Perm.swap ("b", "2") ("a", "1") [],
   validateQuery_deterministic NewQueryValidator [] _ _
     (List.Perm.swap ("b", "2") ("a", "1") [])⟩

/-- C10: when the pattern compiles, `AddParamPattern` succeeds (returns
no error) and stores the compiled matcher under `name`, overwriting any
existing entry of that name — for `name` = "default" this changes every
subsequent name-format check to use the new matcher — while every other
name-pattern entry and the whole type-validator table are unchanged. -/
theorem addParamPattern_success
    (compile : String → Except String (String → Bool))
    (qv : QueryValidator) (name pattern : String) (regex : String → Bool)
    (h : compile pattern = .ok regex) :
    (AddParamPattern compile qv name pattern).1 = none
    ∧ mapLookup (AddParamPattern compile qv name pattern).2.paramPatterns name = some regex
    ∧ (∀ k, k ≠ name →
        mapLookup (AddParamPattern compile qv name pattern).2.paramPatterns k
          = mapLookup qv.paramPatterns k)
    ∧ (AddParamPattern compile qv name pattern).2.typeValidators = qv.typeValidators
    ∧ (name = "default" →
        ∀ p, validateParamName (AddParamPattern compile qv name pattern).2 p = regex p) := by
  have he : AddParamPattern compile qv name pattern
      = (none, { qv with paramPatterns := mapInsert qv.paramPatterns name regex }) := by
    rw [AddParamPattern, h]
  rw [he]
  refine ⟨rfl, mapLookup_mapInsert_self qv.paramPatterns name regex,
    fun k hk => mapLookup_mapInsert_ne qv.paramPatterns name k regex hk, rfl, ?_⟩
  rintro rfl p
  rw [validateParamName]
  rw [mapLookup_mapInsert_self]

/-- Witness for C10: registering a fresh matcher under "default" on the
built-in validator succeeds, overwrites the "default" entry, and leaves
the type-validator table alone. -/
theorem addParamPattern_success_witness :
    (AddParamPattern (fun _ => .ok (fun _ => true)) NewQueryValidator "default" ".*").1 = none
    ∧ mapLookup (AddParamPattern (fun _ => .ok (fun _ => true))
        NewQueryValidator "default" ".*").2.paramPatterns "default" = some (fun _ => true)
    ∧ mapLookup (AddParamPattern (fun _ => .ok (fun _ => true))
        NewQueryValidator "default" ".*").2.paramPatterns "number"
        = mapLookup NewQueryValidator.paramPatterns "number"
    ∧ (AddParamPattern (fun _ => .ok (fun _ => true))
        NewQueryValidator "default" ".*").2.typeValidators = NewQueryValidator.typeValidators
    ∧ validateParamName (AddParamPattern (fun _ => .ok (fun _ => true))
        NewQueryValidator "default" ".*").2 "1abc" = true := by
  obtain ⟨h1, h2, h3, h4, h5⟩ := addParamPattern_success (fun _ => .ok (fun _ => true))
    NewQueryValidator "default" ".*" (fun _ => true) rfl
  exact ⟨h1, h2, h3 "number" (by decide), h4, h5 rfl "1abc"⟩
